import Mathlib

/-!
Verification development for the memthol charts core: shallow embedding of
the label matcher (`src/libs/charts/src/filter/label.rs`), the time/size
line aggregator (`src/libs/charts/src/chart/time/size.rs`) and the client
filter registry (`src/libs/client/src/filter/mod.rs`), together with
theorems settling the specification's testable properties.
-/

/-! ## Label specifications (`filter/label.rs`) -/

/-- Label specification (`LabelSpec` in `filter/label.rs`): matches a run of
arbitrary labels (`Anything`), a literal value, or a regular expression.
The regex engine is an external crate; a regex is embedded as its matching
predicate on strings. -/
inductive LabelSpec where
  | anything : LabelSpec
  | value : String → LabelSpec
  | regex : (String → Bool) → LabelSpec

/-- `LabelSpec::apply` (`FilterExt<str>` impl in `filter/label.rs`). -/
def LabelSpec.apply : LabelSpec → String → Bool
  | .value v, label => label == v
  | .regex re, label => re label
  | .anything, _ => true

/-- `LabelSpec::matches_anything` in `filter/label.rs`. -/
def LabelSpec.matches_anything : LabelSpec → Bool
  | .anything => true
  | .value _ => false
  | .regex _ => false

/-- The `'drain_match_anything` loop of `check_contain`: skip the run of
consecutive `Anything` specs and return the first concrete spec together
with the specs after it (`spec_opt` and the advanced iterator). -/
def firstConcrete : List LabelSpec → Option (LabelSpec × List LabelSpec)
  | [] => none
  | spec :: specs =>
    if spec.matches_anything then firstConcrete specs else some (spec, specs)

theorem firstConcrete_length {specs : List LabelSpec} {next : LabelSpec}
    {rest : List LabelSpec} (h : firstConcrete specs = some (next, rest)) :
    rest.length < specs.length := by
  induction specs with
  | nil => simp [firstConcrete] at h
  | cons s ss ih =>
    unfold firstConcrete at h
    by_cases hm : s.matches_anything = true
    · simp [hm] at h
      exact Nat.lt_trans (ih h) (Nat.lt_succ_self _)
    · simp [hm] at h
      simp [h.2]

mutual

/-- `LabelFilter::check_contain` (`filter/label.rs`, lines 125-175): the
single-pass, non-backtracking two-cursor matcher.  The `'next_spec` loop is
the recursion on specs; the `'find_match` loop with `can_skip = true` is
`scanSkip`. -/
def checkContain : List LabelSpec → List String → Bool
  | [], labels => labels.isEmpty
  | spec :: specs, labels =>
    if spec.matches_anything then
      match h : firstConcrete specs with
      | none => true
      | some (next, rest) => scanSkip next rest labels
    else
      match labels with
      | [] => false
      | label :: labels => if spec.apply label then checkContain specs labels else false
termination_by specs labels => (specs.length, labels.length)
decreasing_by
  all_goals simp_wf
  · exact Prod.Lex.left _ _ (Nat.succ_lt_succ (firstConcrete_length h))
  · exact Prod.Lex.left _ _ (Nat.lt_succ_self _)

/-- The `'find_match` loop of `check_contain` when a wildcard run precedes
`next` (`can_skip = true`): discard labels failing `next`, consume the first
match and continue with the remaining specs; fail if labels run out. -/
def scanSkip (next : LabelSpec) (rest : List LabelSpec) : List String → Bool
  | [] => false
  | label :: labels =>
    if next.apply label then checkContain rest labels else scanSkip next rest labels
termination_by labels => (rest.length + 1, labels.length)
decreasing_by
  all_goals simp_wf
  · exact Prod.Lex.left _ _ (Nat.lt_succ_self _)
  · exact Prod.Lex.right _ (Nat.lt_succ_self _)

end

/-- `LabelFilter` (`filter/label.rs`): retain label lists that contain
(resp. do not contain) a sequence verifying the specs. -/
inductive LabelFilter where
  | contain : List LabelSpec → LabelFilter
  | exclude : List LabelSpec → LabelFilter

/-- `LabelFilter::apply` (`FilterExt<[String]>` impl in `filter/label.rs`). -/
def LabelFilter.apply : LabelFilter → List String → Bool
  | .contain specs, labels => checkContain specs labels
  | .exclude specs, labels => !checkContain specs labels

/-- Modelled from the spec: a backtracking sequence matcher (the comparison
point of §4.2's design note, not present in the code), which may retry an
earlier wildcard's skip point when a later spec fails.  A wildcard either
matches the empty run or consumes one label and stays active. -/
def checkBacktrack : List LabelSpec → List String → Bool
  | [], labels => labels.isEmpty
  | spec :: specs, labels =>
    if spec.matches_anything then
      checkBacktrack specs labels ||
        (match labels with
         | [] => false
         | _ :: labels => checkBacktrack (spec :: specs) labels)
    else
      match labels with
      | [] => false
      | label :: labels => spec.apply label && checkBacktrack specs labels
termination_by specs labels => (labels.length, specs.length)

example : checkContain [.anything, .value "b"] ["a", "x", "b"] = true := by
  simp [checkContain, scanSkip, firstConcrete, LabelSpec.apply, LabelSpec.matches_anything]
example : checkContain [.anything, .value "b"] ["a", "b", "x"] = false := by
  simp [checkContain, scanSkip, firstConcrete, LabelSpec.apply, LabelSpec.matches_anything]
example : checkContain [.value "a", .anything, .value "a"] ["a", "a", "a"] = false := by
  simp [checkContain, scanSkip, firstConcrete, LabelSpec.apply, LabelSpec.matches_anything]
example : checkBacktrack [.value "a", .anything, .value "a"] ["a", "a", "a"] = true := by
  simp [checkBacktrack, LabelSpec.apply, LabelSpec.matches_anything]

/-! ## Lines, filters and allocations -/

/-- `uid::Line`: identity of one output series — the `Everything` aggregate,
the catch-all, or one explicit filter's line. -/
inductive Line where
  | everything : Line
  | catchAll : Line
  | filter : Nat → Line
deriving DecidableEq

/-- Error outcomes of the engine's fallible operations (Rust `Res` errors and
arithmetic panics): source read failure, consistency error (unresolved
allocation id), division by zero, `u32` overflow / underflow panics, missing
line in a point value, and uid collision on filter insertion. -/
inductive Err where
  | srcError : Err
  | consistency : Err
  | divByZero : Err
  | overflow : Err
  | underflow : Err
  | unknownLine : Err
  | uidCollision : Err
deriving DecidableEq

/-- Checked `u32` arithmetic: values are `u32` in the source, and additions
panic on overflow (debug semantics; the spec mandates overflow-checked
unsigned arithmetic for running totals). -/
def u32chk (n : Nat) : Except Err Nat :=
  if n < 2 ^ 32 then .ok n else .error .overflow

/-- Modelled from the spec: `SizeFilter` comparison operators (§4.3); the
size-filter source file is not part of the extract. -/
inductive SizeCmpOp where
  | lt | le | eq | ge | gt
deriving DecidableEq

def SizeCmpOp.apply : SizeCmpOp → Nat → Nat → Bool
  | .lt, s, v => decide (s < v)
  | .le, s, v => decide (s ≤ v)
  | .eq, s, v => decide (s = v)
  | .ge, s, v => decide (s ≥ v)
  | .gt, s, v => decide (s > v)

/-- Modelled from the spec: `SizeFilter` (§4.3) — a comparison
`size op value` or an inclusive range `lb ≤ size ≤ ub`. -/
inductive SizeFilter where
  | cmp : SizeCmpOp → Nat → SizeFilter
  | range : Nat → Nat → SizeFilter

def SizeFilter.apply : SizeFilter → Nat → Bool
  | .cmp op v, s => op.apply s v
  | .range lb ub, s => decide (lb ≤ s) && decide (s ≤ ub)

/-- An allocation as consumed by the aggregator (external `Alloc` data):
identifier, size, birth time (nanoseconds since the stream start) and label
sequence. -/
structure Alloc where
  uid : Nat
  size : Nat
  toc : Nat
  labels : List String

/-- `SubFilter`: a size predicate or a label predicate (tagged union). -/
inductive SubFilter where
  | size : SizeFilter → SubFilter
  | label : LabelFilter → SubFilter

def SubFilter.apply : SubFilter → Alloc → Bool
  | .size sf, a => sf.apply a.size
  | .label lf, a => lf.apply a.labels

/-- A registry filter as the matcher sees it: unique id plus the ordered
conjunction of sub-filters (name, color and the transient edited flag play
no role in matching).  Named `Filter'` because `Filter` is taken by the
ambient library. -/
structure Filter' where
  uid : Nat
  subs : List SubFilter

/-- Modelled from the spec: `find_live_match` (§4.1, charts-side `Filters`
registry, not part of the extract) — evaluate filters in registration order
and return the first whose sub-filters all hold; `none` means catch-all.
The current-time parameter is unused by size and label predicates. -/
def findLiveMatch (fs : List Filter') (_time : Nat) (a : Alloc) : Option Nat :=
  (fs.find? fun f => f.subs.all fun sub => sub.apply a).map Filter'.uid

/-- Modelled from the spec: `find_dead_match` (§4.1) — the same iteration
evaluated on the dead object's static attributes only. -/
def findDeadMatch (fs : List Filter') (a : Alloc) : Option Nat :=
  (fs.find? fun f => f.subs.all fun sub => sub.apply a).map Filter'.uid

/-- Line resolution in `get_allocs`: a filter match yields that filter's
line, no match yields the catch-all line. -/
def lineOfMatch : Option Nat → Line
  | some id => .filter id
  | none => .catchAll

/-! ## Point values (`PointVal`) and the pending-bucket map -/

/-- Modelled from the spec: `PointVal<T>` (§3, `point.rs` is not part of the
extract) — a mapping from line ids to values, one entry per line currently
known.  Embedded as an association list; all operations respect first-entry
lookup semantics. -/
abbrev PointVal (α : Type) : Type := List (Line × α)

/-- `PointVal::new(v, filters)`: one entry per known line — `Everything`,
the catch-all, and each registry filter's line — all bound to `v`. -/
def PointVal.new (v : α) (fs : List Filter') : PointVal α :=
  (.everything, v) :: (.catchAll, v) :: fs.map fun f => (.filter f.uid, v)

/-- Lookup of a line's entry (first occurrence). -/
def PointVal.find : PointVal α → Line → Option α
  | [], _ => none
  | (k, v) :: rest, l => if k = l then some v else PointVal.find rest l

/-- `PointVal::get_mut_or` read out: current value, or the default when the
line is absent. -/
def PointVal.getOr (pv : PointVal α) (l : Line) (dflt : α) : α :=
  match pv.find l with
  | some v => v
  | none => dflt

/-- `toc_point_val.get_mut_or(uid, (0, 0)).0 += size` — add to the `added`
component of a line's bucket delta, inserting a zero entry first when the
line is absent; the `u32` addition is overflow-checked. -/
def pvAddFst : PointVal (Nat × Nat) → Line → Nat → Except Err (PointVal (Nat × Nat))
  | [], l, s =>
    match u32chk (0 + s) with
    | .error e => .error e
    | .ok v => .ok [(l, (v, 0))]
  | (k, ar) :: rest, l, s =>
    if k = l then
      match u32chk (ar.1 + s) with
      | .error e => .error e
      | .ok v => .ok ((k, (v, ar.2)) :: rest)
    else
      match pvAddFst rest l s with
      | .error e => .error e
      | .ok rest' => .ok ((k, ar) :: rest')

/-- `toc_point_val.get_mut(uid)?.1 += size` — add to the `removed` component
of a line's bucket delta; fails when the line is absent (`get_mut` errors). -/
def pvAddSnd : PointVal (Nat × Nat) → Line → Nat → Except Err (PointVal (Nat × Nat))
  | [], _, _ => .error .unknownLine
  | (k, ar) :: rest, l, s =>
    if k = l then
      match u32chk (ar.2 + s) with
      | .error e => .error e
      | .ok v => .ok ((k, (ar.1, v)) :: rest)
    else
      match pvAddSnd rest l s with
      | .error e => .error e
      | .ok rest' => .ok ((k, ar) :: rest')

/-- `self.map.entry(date).or_insert(default)` on the date-ordered pending
map (`BTMap<Date, _>`), embedded as an ascending association list over
absolute dates in nanoseconds. -/
def entryOrInsert : List (Int × β) → Int → β → List (Int × β)
  | [], d, v => [(d, v)]
  | (k, w) :: rest, d, v =>
    if d < k then (d, v) :: (k, w) :: rest
    else if d = k then (k, w) :: rest
    else (k, w) :: entryOrInsert rest d v

/-- Mutation of the pending-map entry at a date known to be present (the
`&mut` returned by `entry().or_insert()`). -/
def updateAtDate : List (Int × β) → Int → (β → Except Err β) → Except Err (List (Int × β))
  | [], _, _ => .error .unknownLine
  | (k, w) :: rest, d, f =>
    if k = d then
      match f w with
      | .error e => .error e
      | .ok w' => .ok ((k, w') :: rest)
    else
      match updateAtDate rest d f with
      | .error e => .error e
      | .ok rest' => .ok ((k, w) :: rest')

/-! ## The time/size line aggregator (`chart/time/size.rs`) -/

/-- `TimeSize` (`chart/time/size.rs`, lines 12-21): cursor (`timestamp`),
running-total baseline (`size`), pending bucket map (`map`, date-ordered)
and the coalescing cursor (`last_time_stamp`).  Times are nanoseconds since
the stream start; dates are absolute nanosecond timestamps. -/
structure TimeSize where
  timestamp : Nat
  size : PointVal Nat
  map : List (Int × PointVal (Nat × Nat))
  last_time_stamp : Option Nat

/-- `TimeSize::new` (`chart/time/size.rs`, lines 57-67). -/
def TimeSize.new (fs : List Filter') : TimeSize :=
  { timestamp := 0
    size := PointVal.new 0 fs
    map := []
    last_time_stamp := none }

/-- `chart::settings::Resolution`: display resolution configuration. -/
structure Resolution where
  width : Nat
  height : Nat

/-- The external event source of one `ingest` call (`data::get()` handle):
stream origin date, current stream time, the full birth stream (`toc`
ascending), the death notifications (`(uids, tod)` groups, `tod` ascending),
the allocation table backing `get_alloc`, and an injected read failure —
`failBirthsAfter = some n` makes the `iter_new_since` read fail after
delivering `n` births (`visit` callbacks may fail per §6). -/
structure SourceData where
  startTime : Int
  currentTime : Nat
  births : List Alloc
  deaths : List (List Nat × Nat)
  allocs : List (Nat × Alloc)
  failBirthsAfter : Option Nat

/-- `data.get_alloc(uid)`: resolve a dead allocation's identifier; an
unknown identifier is a consistency error. -/
def getAlloc : List (Nat × Alloc) → Nat → Except Err Alloc
  | [], _ => .error .consistency
  | (k, a) :: rest, u => if k = u then .ok a else getAlloc rest u

/-- `min_time_spacing` (`chart/time/size.rs`, line 158): current stream time
divided by `width / 200` (both integer divisions). -/
def minTimeSpacing (ct width : Nat) : Nat := ct / (width / 200)

/-- The shared coalescing step (`chart/time/size.rs`, lines 175-185 and
212-222): given the coalescing cursor, an event time and the minimum
spacing, return the bucket-opening time actually used and the new cursor.
The cursor-minus-event subtraction is on unsigned durations and truncates
at zero. -/
def coalesce (lastTS : Option Nat) (t ms : Nat) : Nat × Option Nat :=
  match lastTS with
  | some l => if l - t < ms then (l, some l) else (t, some t)
  | none => (t, some t)

/-- Mutable state threaded through the two `get_allocs` iteration passes:
the pending map, the coalescing cursor, and the `new_stuff` flag. -/
structure BuildAcc where
  map : List (Int × PointVal (Nat × Nat))
  lastTS : Option Nat
  newStuff : Bool

/-- One birth visit (`chart/time/size.rs`, lines 166-198): resolve the line
via `find_match` (else catch-all), coalesce the bucket date, and add the
allocation's size to the bucket's `added` component for that line and for
`Everything`. -/
def birthStep (fs : List Filter') (ct ms : Nat) (stime : Int) (acc : BuildAcc) (a : Alloc) :
    Except Err BuildAcc :=
  let uid := lineOfMatch (findLiveMatch fs ct a)
  let adjusted := coalesce acc.lastTS a.toc ms
  let m0 := entryOrInsert acc.map (stime + (adjusted.1 : Int)) (PointVal.new (0, 0) fs)
  match updateAtDate m0 (stime + (adjusted.1 : Int)) fun pv =>
      match pvAddFst pv uid a.size with
      | .error e => .error e
      | .ok pv1 => pvAddFst pv1 .everything a.size with
  | .error e => .error e
  | .ok m => .ok { map := m, lastTS := adjusted.2, newStuff := true }

/-- `data.iter_new_since(timestamp, …)` (lines 163-199): visit each new
birth in order; a failing read aborts the iteration, the mutations already
performed persisting in the aggregator.  `failAfter` counts down the
injected source failure. -/
def runBirths (fs : List Filter') (ct ms : Nat) (stime : Int) :
    BuildAcc → List Alloc → Option Nat → BuildAcc × Option Err
  | acc, births, fa =>
    if fa = some 0 then (acc, some .srcError)
    else
      match births with
      | [] => (acc, none)
      | a :: rest =>
        match birthStep fs ct ms stime acc a with
        | .error e => (acc, some e)
        | .ok acc' => runBirths fs ct ms stime acc' rest (fa.map (· - 1))

/-- The `for uid in uids` loop of a death notification (lines 224-247):
resolve the allocation (consistency error when unknown), resolve its line
via `find_dead_match` (else catch-all), and add its size to the bucket's
`removed` component for that line and for `Everything`. -/
def deathUids (fs : List Filter') (stime : Int) (adj : Nat) (allocs : List (Nat × Alloc)) :
    BuildAcc → List Nat → BuildAcc × Option Err
  | acc, [] => (acc, none)
  | acc, u :: rest =>
    match getAlloc allocs u with
    | .error e => (acc, some e)
    | .ok alloc =>
      let uid := lineOfMatch (findDeadMatch fs alloc)
      let m0 := entryOrInsert acc.map (stime + (adj : Int)) (PointVal.new (0, 0) fs)
      match updateAtDate m0 (stime + (adj : Int)) fun pv =>
          match pvAddSnd pv uid alloc.size with
          | .error e => .error e
          | .ok pv1 => pvAddSnd pv1 .everything alloc.size with
      | .error e => ({ acc with map := m0 }, some e)
      | .ok m => deathUids fs stime adj allocs { acc with map := m } rest

/-- One death notification (lines 206-248): a notification with no
identifiers is skipped; otherwise mark `new_stuff`, coalesce the death time
once for the whole group, and process each identifier. -/
def deathStep (fs : List Filter') (ms : Nat) (stime : Int) (allocs : List (Nat × Alloc))
    (acc : BuildAcc) (g : List Nat × Nat) : BuildAcc × Option Err :=
  if g.1.isEmpty then (acc, none)
  else
    let (adj, lts) := coalesce acc.lastTS g.2 ms
    deathUids fs stime adj allocs { acc with lastTS := lts, newStuff := true } g.1

/-- `data.iter_dead_since(timestamp, …)` (lines 203-250). -/
def runDeaths (fs : List Filter') (ms : Nat) (stime : Int) (allocs : List (Nat × Alloc)) :
    BuildAcc → List (List Nat × Nat) → BuildAcc × Option Err
  | acc, [] => (acc, none)
  | acc, g :: rest =>
    match deathStep fs ms stime allocs acc g with
    | (acc', some e) => (acc', some e)
    | (acc', none) => runDeaths fs ms stime allocs acc' rest

/-- `TimeSize::get_allocs` (`chart/time/size.rs`, lines 135-257): pull all
events since the cursor, coalesce them into pending buckets, and advance the
cursor past the current stream time when anything was processed.  The call
returns the (possibly partially mutated) state together with an optional
error: on failure the state keeps the mutations already performed and the
cursor is untouched.  The `debug_assert!(self.map.is_empty())` precondition
compiles out in release builds and is not modelled as a failure.  The
division computing `min_time_spacing` is a `Duration / u32` division, which
panics when `width / 200 = 0`. -/
def TimeSize.get_allocs (st : TimeSize) (fs : List Filter') (init : Bool) (res : Resolution)
    (src : SourceData) : TimeSize × Option Err :=
  let map0 :=
    if init then entryOrInsert st.map (src.startTime + ((0 : Nat) : Int)) (PointVal.new (0, 0) fs)
    else st.map
  if res.width / 200 = 0 then ({ st with map := map0 }, some .divByZero)
  else
    let ms := minTimeSpacing src.currentTime res.width
    let acc0 : BuildAcc := { map := map0, lastTS := some src.currentTime, newStuff := false }
    let bs := src.births.filter fun a => decide (st.timestamp ≤ a.toc)
    match runBirths fs src.currentTime ms src.startTime acc0 bs src.failBirthsAfter with
    | (acc1, some e) => ({ st with map := acc1.map, last_time_stamp := acc1.lastTS }, some e)
    | (acc1, none) =>
      let acc2 := { acc1 with lastTS := some src.currentTime }
      let ds := src.deaths.filter fun g => decide (st.timestamp ≤ g.2)
      match runDeaths fs ms src.startTime src.allocs acc2 ds with
      | (acc3, some e) => ({ st with map := acc3.map, last_time_stamp := acc3.lastTS }, some e)
      | (acc3, none) =>
        ({ st with
            map := acc3.map
            last_time_stamp := acc3.lastTS
            timestamp := if acc3.newStuff then src.currentTime + 1 else st.timestamp },
          none)

/-! ## Flush (`generate_points`) -/

/-- The closure of `point_val.map` in `generate_points` (lines 96-99):
`(baseline.get_mut_or(uid, 0) + to_add) - to_sub` per entry, with checked
`u32` addition and subtraction (underflow is a panic in the source). -/
def mapPoints (size : PointVal Nat) : PointVal (Nat × Nat) → Except Err (PointVal Nat)
  | [] => .ok []
  | (uid, ar) :: rest =>
    match u32chk (size.getOr uid 0 + ar.1) with
    | .error e => .error e
    | .ok sum =>
      if ar.2 ≤ sum then
        match mapPoints size rest with
        | .error e => .error e
        | .ok tail => .ok ((uid, sum - ar.2) :: tail)
      else .error .underflow

/-- The `for (time, point_val) in map` loop of `generate_points` (lines
95-103): fold the drained buckets in ascending date order, replacing the
baseline with each bucket's new totals and emitting one point per bucket.
On failure the partially updated baseline persists (the map was already
drained). -/
def genLoop : TimeSize → List (Int × PointVal (Nat × Nat)) → List (Int × PointVal Nat) →
    TimeSize × Except Err (List (Int × PointVal Nat))
  | st, [], pts => (st, .ok pts)
  | st, (d, pv) :: rest, pts =>
    match mapPoints st.size pv with
    | .error e => (st, .error e)
    | .ok pv' => genLoop { st with size := pv' } rest (pts ++ [(d, pv')])

/-- The single-point post-processing of `generate_points` (lines 105-125):
when exactly one point resulted, clone it, zero all its values, and emit
that zeroed clone at `(secs - 1, nanos)` before the point and a second
clone of the zeroed point at `(secs + 1, nanos)` after it
(`Date::from_timestamp` on the decomposed timestamp). -/
def borders (pts : List (Int × PointVal Nat)) : List (Int × PointVal Nat) :=
  match pts with
  | [p] =>
    let beforeVals : PointVal Nat := p.2.map fun kv => (kv.1, 0)
    let secs := p.1 / 1000000000
    let nanos := p.1 % 1000000000
    let beforeKey := (secs - 1) * 1000000000 + nanos
    let afterKey := (secs + 1) * 1000000000 + nanos
    [(beforeKey, beforeVals), p, (afterKey, beforeVals)]
  | other => other

/-- `TimeSize::generate_points` (lines 90-128): drain the pending map into
points (the map is emptied up front by `mem::replace`), then apply the
single-point border synthesis. -/
def TimeSize.generate_points (st : TimeSize) :
    TimeSize × Except Err (List (Int × PointVal Nat)) :=
  match genLoop { st with map := [] } st.map [] with
  | (st', .error e) => (st', .error e)
  | (st', .ok pts) => (st', .ok (borders pts))

/-- `TimeSize::new_points` (lines 37-45): `get_allocs` then
`generate_points`. -/
def TimeSize.new_points (st : TimeSize) (fs : List Filter') (init : Bool) (res : Resolution)
    (src : SourceData) : TimeSize × Except Err (List (Int × PointVal Nat)) :=
  match st.get_allocs fs init res src with
  | (st', some e) => (st', .error e)
  | (st', none) => st'.generate_points

/-! ## The client filter registry (`client/filter/mod.rs`) -/

/-- A stored client filter: unique id, display name and the transient
edited flag (color and sub-filters do not bear on registry claims and the
push path never reads them). -/
structure ClientFilter where
  uid : Nat
  name : String
  edited : Bool
deriving DecidableEq

/-- `Map::insert` on the `Map<FilterUid, Filter>` field: replace the entry
in place and return the previous value, inserting in key order when the key
is new. -/
def mapInsert : List (Nat × ClientFilter) → Nat → ClientFilter →
    Option ClientFilter × List (Nat × ClientFilter)
  | [], k, v => (none, [(k, v)])
  | (k', v') :: rest, k, v =>
    if k' = k then (some v', (k', v) :: rest)
    else
      let r := mapInsert rest k v
      (r.1, (k', v') :: r.2)

/-- The client `Filters` registry (`client/filter/mod.rs`, lines 10-19):
the filter map plus the deleted flag (the catch-all spec and the model
callback are unaffected by `push`). -/
structure Filters where
  filters : List (Nat × ClientFilter)
  deleted : Bool

/-- `Filters::push` (`client/filter/mod.rs`, lines 61-73): insert the
filter under its uid, then fail with a uid-collision error if an entry was
already present — the insertion itself is not rolled back. -/
def Filters.push (st : Filters) (f : ClientFilter) : Filters × Option Err :=
  match (mapInsert st.filters f.uid f).1 with
  | some _ => ({ st with filters := (mapInsert st.filters f.uid f).2 }, some .uidCollision)
  | none => ({ st with filters := (mapInsert st.filters f.uid f).2 }, none)

/-- Key lookup in the client filter map. -/
def mapFind : List (Nat × ClientFilter) → Nat → Option ClientFilter
  | [], _ => none
  | (k, v) :: rest, u => if k = u then some v else mapFind rest u



/-! ## Support lemmas -/

theorem u32chk_ok {n : Nat} (h : n < 2 ^ 32) : u32chk n = .ok n := by
  unfold u32chk
  exact if_pos h

theorem u32chk_ne_err {n : Nat} {e : Err} (h : e ≠ .overflow) : u32chk n ≠ .error e := by
  unfold u32chk
  split
  · exact fun hh => by cases hh
  · exact fun hh => h (by cases hh; rfl)

theorem PointVal.find_mem {pv : PointVal α} {l : Line} {v : α}
    (h : pv.find l = some v) : (l, v) ∈ pv := by
  induction pv with
  | nil => simp [PointVal.find] at h
  | cons kv rest ih =>
    obtain ⟨k, w⟩ := kv
    unfold PointVal.find at h
    by_cases hk : k = l
    · rw [if_pos hk] at h
      cases h
      simp [hk]
    · rw [if_neg hk] at h
      exact List.mem_cons_of_mem _ (ih h)

theorem PointVal.new_find_everything (v : α) (fs : List Filter') :
    (PointVal.new v fs).find .everything = some v := by
  simp [PointVal.new, PointVal.find]

theorem PointVal.new_find_catchAll (v : α) (fs : List Filter') :
    (PointVal.new v fs).find .catchAll = some v := by
  simp [PointVal.new, PointVal.find]

theorem PointVal.new_mem {v : α} {fs : List Filter'} {l : Line} {w : α}
    (h : (l, w) ∈ PointVal.new v fs) : w = v := by
  unfold PointVal.new at h
  rcases List.mem_cons.mp h with heq | h
  · exact (Prod.mk.injEq _ _ _ _ ▸ heq).2
  rcases List.mem_cons.mp h with heq | h
  · exact (Prod.mk.injEq _ _ _ _ ▸ heq).2
  · obtain ⟨f, _, hf⟩ := List.mem_map.mp h
    exact (Prod.mk.injEq _ _ _ _ ▸ hf).2.symm

theorem PointVal.new_getOr (v : α) (fs : List Filter') (l : Line) :
    (PointVal.new v fs).getOr l v = v := by
  unfold PointVal.getOr
  match hf : (PointVal.new v fs).find l with
  | some w => exact PointVal.new_mem (PointVal.find_mem hf)
  | none => rfl

/-- Pure shape of `pvAddFst` (proof device: the result when the checked
addition does not overflow). -/
def pvAddFstP : PointVal (Nat × Nat) → Line → Nat → PointVal (Nat × Nat)
  | [], l, s => [(l, (0 + s, 0))]
  | (k, ar) :: rest, l, s =>
    if k = l then (k, (ar.1 + s, ar.2)) :: rest
    else (k, ar) :: pvAddFstP rest l s

theorem pvAddFst_eq_ok {pv : PointVal (Nat × Nat)} {l : Line} {s : Nat}
    (h : (pv.getOr l (0, 0)).1 + s < 2 ^ 32) :
    pvAddFst pv l s = .ok (pvAddFstP pv l s) := by
  induction pv with
  | nil =>
    simp [PointVal.getOr, PointVal.find] at h
    simp [pvAddFst, pvAddFstP, u32chk, h]
  | cons kv rest ih =>
    obtain ⟨k, ar⟩ := kv
    by_cases hk : k = l
    · subst hk
      simp [PointVal.getOr, PointVal.find] at h
      simp [pvAddFst, pvAddFstP, u32chk, h]
    · simp [PointVal.getOr, PointVal.find, hk] at h
      simp [pvAddFst, pvAddFstP, hk, ih h]

theorem pvAddFstP_find_self (pv : PointVal (Nat × Nat)) (l : Line) (s : Nat) :
    (pvAddFstP pv l s).find l =
      some ((pv.getOr l (0, 0)).1 + s, (pv.getOr l (0, 0)).2) := by
  induction pv with
  | nil => simp [pvAddFstP, PointVal.find, PointVal.getOr]
  | cons kv rest ih =>
    obtain ⟨k, ar⟩ := kv
    by_cases hk : k = l
    · subst hk
      simp [pvAddFstP, PointVal.find, PointVal.getOr]
    · simp [pvAddFstP, PointVal.find, PointVal.getOr, hk, ih]

theorem pvAddFstP_find_other {l l' : Line} (pv : PointVal (Nat × Nat)) (s : Nat)
    (hne : l' ≠ l) : (pvAddFstP pv l s).find l' = pv.find l' := by
  induction pv with
  | nil => simp [pvAddFstP, PointVal.find, Ne.symm hne]
  | cons kv rest ih =>
    obtain ⟨k, ar⟩ := kv
    by_cases hk : k = l
    · subst hk
      simp [pvAddFstP, PointVal.find, Ne.symm hne]
    · by_cases hk' : k = l'
      · simp [pvAddFstP, PointVal.find, hk, hk', hne]
      · simp [pvAddFstP, PointVal.find, hk, hk', ih]

theorem pvAddFstP_mem {pv : PointVal (Nat × Nat)} {l l' : Line} {s : Nat} {ar' : Nat × Nat}
    (h : (l', ar') ∈ pvAddFstP pv l s) :
    (l', ar') ∈ pv ∨
      (l' = l ∧ ar' = ((pv.getOr l (0, 0)).1 + s, (pv.getOr l (0, 0)).2)) := by
  induction pv with
  | nil =>
    simp only [pvAddFstP, List.mem_singleton, Prod.mk.injEq] at h
    refine Or.inr ⟨h.1, ?_⟩
    simp [h.2, PointVal.getOr, PointVal.find]
  | cons kv rest ih =>
    obtain ⟨k, ar⟩ := kv
    by_cases hk : k = l
    · subst hk
      rw [pvAddFstP, if_pos rfl] at h
      rcases List.mem_cons.mp h with heq | hmem
      · have h1 : l' = k := congrArg Prod.fst heq
        have h2 : ar' = (ar.1 + s, ar.2) := congrArg Prod.snd heq
        refine Or.inr ⟨h1, ?_⟩
        simp [h2, PointVal.getOr, PointVal.find]
      · exact Or.inl (List.mem_cons_of_mem _ hmem)
    · rw [pvAddFstP, if_neg hk] at h
      rcases List.mem_cons.mp h with heq | hmem
      · exact Or.inl (List.mem_cons.mpr (Or.inl heq))
      · rcases ih hmem with hin | ⟨h1, h2⟩
        · exact Or.inl (List.mem_cons_of_mem _ hin)
        · refine Or.inr ⟨h1, ?_⟩
          simp [h2, PointVal.getOr, PointVal.find, hk]

/-- Pure shape of the flush per-bucket recomputation (proof device). -/
def mapPointsP (size : PointVal Nat) : PointVal (Nat × Nat) → PointVal Nat
  | [] => []
  | (uid, ar) :: rest => (uid, size.getOr uid 0 + ar.1 - ar.2) :: mapPointsP size rest

theorem mapPoints_eq_ok {size : PointVal Nat} {pv : PointVal (Nat × Nat)}
    (h : ∀ l ar, (l, ar) ∈ pv →
      size.getOr l 0 + ar.1 < 2 ^ 32 ∧ ar.2 ≤ size.getOr l 0 + ar.1) :
    mapPoints size pv = .ok (mapPointsP size pv) := by
  induction pv with
  | nil => rfl
  | cons kv rest ih =>
    obtain ⟨k, ar⟩ := kv
    obtain ⟨h1, h2⟩ := h k ar (List.mem_cons_self _ _)
    have hrest := fun l ar' hm => h l ar' (List.mem_cons_of_mem _ hm)
    simp [mapPoints, u32chk_ok h1, h2, ih hrest, mapPointsP]

theorem mapPointsP_find (size : PointVal Nat) (pv : PointVal (Nat × Nat)) (l : Line) :
    (mapPointsP size pv).find l =
      (pv.find l).map fun ar => size.getOr l 0 + ar.1 - ar.2 := by
  induction pv with
  | nil => simp [mapPointsP, PointVal.find]
  | cons kv rest ih =>
    obtain ⟨k, ar⟩ := kv
    by_cases hk : k = l
    · subst hk
      simp [mapPointsP, PointVal.find]
    · simp [mapPointsP, PointVal.find, hk, ih]

theorem genLoop_map_eq (bs : List (Int × PointVal (Nat × Nat))) (st : TimeSize)
    (pts : List (Int × PointVal Nat)) : (genLoop st bs pts).1.map = st.map := by
  induction bs generalizing st pts with
  | nil => rfl
  | cons b rest ih =>
    obtain ⟨d, pv⟩ := b
    simp only [genLoop]
    cases hm : mapPoints st.size pv with
    | error e => rfl
    | ok pv' => exact ih _ _

theorem generate_points_map_empty (st : TimeSize) : (st.generate_points).1.map = [] := by
  unfold TimeSize.generate_points
  cases hg : genLoop { st with map := [] } st.map [] with
  | mk st' r =>
    have := genLoop_map_eq st.map { st with map := [] } []
    rw [hg] at this
    cases r <;> simpa using this

theorem entryOrInsert_cons_self (d : Int) (w v : β) (rest : List (Int × β)) :
    entryOrInsert ((d, w) :: rest) d v = (d, w) :: rest := by
  simp [entryOrInsert]

theorem mapInsert_fst (m : List (Nat × ClientFilter)) (k : Nat) (v : ClientFilter) :
    (mapInsert m k v).1 = mapFind m k := by
  induction m with
  | nil => rfl
  | cons kv rest ih =>
    obtain ⟨k', v'⟩ := kv
    by_cases hk : k' = k
    · simp [mapInsert, mapFind, hk]
    · simp [mapInsert, mapFind, hk, ih]

theorem mapInsert_find_self (m : List (Nat × ClientFilter)) (k : Nat) (v : ClientFilter) :
    mapFind (mapInsert m k v).2 k = some v := by
  induction m with
  | nil => simp [mapInsert, mapFind]
  | cons kv rest ih =>
    obtain ⟨k', v'⟩ := kv
    by_cases hk : k' = k
    · simp [mapInsert, mapFind, hk]
    · simp [mapInsert, mapFind, hk, ih]

theorem mapInsert_find_other (m : List (Nat × ClientFilter)) (k : Nat) (v : ClientFilter)
    (k' : Nat) (h : k' ≠ k) : mapFind (mapInsert m k v).2 k' = mapFind m k' := by
  induction m with
  | nil => simp [mapInsert, mapFind, Ne.symm h]
  | cons kv rest ih =>
    obtain ⟨k'', v''⟩ := kv
    by_cases hk : k'' = k
    · subst hk
      simp [mapInsert, mapFind, Ne.symm h]
    · by_cases hk2 : k'' = k'
      · subst hk2
        simp [mapInsert, mapFind, hk, h]
      · simp [mapInsert, mapFind, hk, hk2, ih]

/-! ## Claims C3, C8 — the label matcher -/

/-- Claim C3: `check_contain` matches specs `[Wildcard, Value "b"]` against
labels `["a", "x", "b"]`; the same specs do not match `["a", "b", "x"]`
because after all specs are consumed success requires that no labels
remain; and a spec list whose wildcard run extends to its end — here
`[Wildcard]` — matches every label sequence, including the empty one,
regardless of remaining labels. -/
theorem check_contain_wildcard_cases :
    checkContain [.anything, .value "b"] ["a", "x", "b"] = true ∧
    checkContain [.anything, .value "b"] ["a", "b", "x"] = false ∧
    ∀ labels : List String, checkContain [.anything] labels = true := by
  refine ⟨?_, ?_, fun labels => ?_⟩
  · simp [checkContain, scanSkip, firstConcrete, LabelSpec.apply, LabelSpec.matches_anything]
  · simp [checkContain, scanSkip, firstConcrete, LabelSpec.apply, LabelSpec.matches_anything]
  · cases labels with
    | nil => simp [checkContain, firstConcrete, LabelSpec.matches_anything]
    | cons l ls => simp [checkContain, firstConcrete, LabelSpec.matches_anything]

/-- Claim C8: the greedy non-backtracking matcher is not equivalent to a
backtracking one — on the alternating specs `[Value "a", Wildcard,
Value "a"]` and labels `["a", "a", "a"]`, `check_contain` returns false
while the backtracking matcher returns true. -/
theorem greedy_differs_from_backtracking :
    checkContain [.value "a", .anything, .value "a"] ["a", "a", "a"] = false ∧
    checkBacktrack [.value "a", .anything, .value "a"] ["a", "a", "a"] = true := by
  constructor
  · simp [checkContain, scanSkip, firstConcrete, LabelSpec.apply, LabelSpec.matches_anything]
  · simp [checkBacktrack, LabelSpec.apply, LabelSpec.matches_anything]

/-! ## Claim C9 — flush idempotence -/

/-- Claim C9: calling flush a second time with no intervening ingest
returns the empty point sequence: the first `generate_points` drains the
pending map into an empty map (even on failure), the empty map generates
zero points, and the single-point border synthesis does not fire on an
empty point list.  The second call moreover leaves the state unchanged. -/
theorem flush_twice_empty (st : TimeSize) :
    ((st.generate_points).1.generate_points).2 = .ok [] ∧
    ((st.generate_points).1.generate_points).1 = (st.generate_points).1 := by
  have h := generate_points_map_empty st
  rcases hst : (st.generate_points).1 with ⟨ts, sz, mp, lts⟩
  rw [hst] at h
  subst h
  exact ⟨rfl, rfl⟩

/-! ## Claim C4 — uid collision on push -/

/-- Claim C4 counterexample: pushing a filter whose id 1 is already present
does return the uid-collision error, but the registry is modified — the
stored filter for id 1 is now the new filter, not the previously stored
one, refuting "leaves the registry state unchanged". -/
theorem push_collision_cex :
    (Filters.push ⟨[(1, ⟨1, "old", false⟩)], false⟩ ⟨1, "new", false⟩).2 =
        some .uidCollision ∧
    mapFind (Filters.push ⟨[(1, ⟨1, "old", false⟩)], false⟩ ⟨1, "new", false⟩).1.filters 1 =
        some ⟨1, "new", false⟩ ∧
    mapFind (Filters.push ⟨[(1, ⟨1, "old", false⟩)], false⟩ ⟨1, "new", false⟩).1.filters 1 ≠
        some ⟨1, "old", false⟩ := by
  refine ⟨rfl, rfl, ?_⟩
  intro hcontra
  simp [mapFind, Filters.push, mapInsert] at hcontra

/-- Claim C4 (corrected): for every registry state and filter whose id is
already present, `push` fails with the uid-collision error but the registry
is not left unchanged — the new filter replaces the previously stored one;
entries under other ids and the `deleted` flag are untouched. -/
theorem push_collision_replaces (st : Filters) (f : ClientFilter)
    (h : (mapFind st.filters f.uid).isSome) :
    (st.push f).2 = some .uidCollision ∧
    mapFind (st.push f).1.filters f.uid = some f ∧
    (st.push f).1.deleted = st.deleted ∧
    ∀ k, k ≠ f.uid → mapFind (st.push f).1.filters k = mapFind st.filters k := by
  obtain ⟨w, hw⟩ := Option.isSome_iff_exists.mp h
  have hfst : (mapInsert st.filters f.uid f).1 = some w := by
    rw [mapInsert_fst]; exact hw
  refine ⟨?_, ?_, ?_, fun k hk => ?_⟩
  · simp [Filters.push, hfst]
  · simp [Filters.push, hfst, mapInsert_find_self]
  · simp [Filters.push, hfst]
  · simp [Filters.push, hfst, mapInsert_find_other _ _ _ _ hk]

/-- Witness for `push_collision_replaces` at a concrete registry. -/
theorem push_collision_replaces_witness :
    (Filters.push ⟨[(1, ⟨1, "a", false⟩)], false⟩ ⟨1, "b", true⟩).2 = some .uidCollision ∧
    mapFind (Filters.push ⟨[(1, ⟨1, "a", false⟩)], false⟩ ⟨1, "b", true⟩).1.filters 1 =
        some ⟨1, "b", true⟩ ∧
    (Filters.push ⟨[(1, ⟨1, "a", false⟩)], false⟩ ⟨1, "b", true⟩).1.deleted = false ∧
    ∀ k, k ≠ 1 →
      mapFind (Filters.push ⟨[(1, ⟨1, "a", false⟩)], false⟩ ⟨1, "b", true⟩).1.filters k =
        mapFind [(1, ⟨1, "a", false⟩)] k :=
  push_collision_replaces ⟨[(1, ⟨1, "a", false⟩)], false⟩ ⟨1, "b", true⟩ (by decide)

/-! ## Error classification: which errors each stage can produce -/

theorem u32chk_err {n : Nat} {e : Err} (h : u32chk n = .error e) : e = .overflow := by
  unfold u32chk at h
  split at h
  · cases h
  · cases h; rfl

theorem pvAddFst_err {pv : PointVal (Nat × Nat)} {l : Line} {s : Nat} {e : Err}
    (h : pvAddFst pv l s = .error e) : e = .overflow := by
  induction pv with
  | nil =>
    simp only [pvAddFst] at h
    split at h
    · cases h; exact u32chk_err (by assumption)
    · cases h
  | cons kv rest ih =>
    obtain ⟨k, ar⟩ := kv
    simp only [pvAddFst] at h
    by_cases hk : k = l
    · rw [if_pos hk] at h
      split at h
      · cases h; exact u32chk_err (by assumption)
      · cases h
    · rw [if_neg hk] at h
      split at h
      · cases h; exact ih (by assumption)
      · cases h

theorem pvAddSnd_err {pv : PointVal (Nat × Nat)} {l : Line} {s : Nat} {e : Err}
    (h : pvAddSnd pv l s = .error e) : e = .overflow ∨ e = .unknownLine := by
  induction pv with
  | nil => cases h; exact Or.inr rfl
  | cons kv rest ih =>
    obtain ⟨k, ar⟩ := kv
    simp only [pvAddSnd] at h
    by_cases hk : k = l
    · rw [if_pos hk] at h
      split at h
      · cases h; exact Or.inl (u32chk_err (by assumption))
      · cases h
    · rw [if_neg hk] at h
      split at h
      · cases h; exact ih (by assumption)
      · cases h

theorem updateAtDate_err {m : List (Int × β)} {d : Int} {f : β → Except Err β} {e : Err}
    (h : updateAtDate m d f = .error e) : e = .unknownLine ∨ ∃ b, f b = .error e := by
  induction m with
  | nil => cases h; exact Or.inl rfl
  | cons kv rest ih =>
    obtain ⟨k, w⟩ := kv
    simp only [updateAtDate] at h
    by_cases hk : k = d
    · rw [if_pos hk] at h
      split at h
      · cases h; exact Or.inr ⟨w, by assumption⟩
      · cases h
    · rw [if_neg hk] at h
      split at h
      · cases h; exact ih (by assumption)
      · cases h

theorem birthStep_err {fs : List Filter'} {ct ms : Nat} {stime : Int} {acc : BuildAcc}
    {a : Alloc} {e : Err} (h : birthStep fs ct ms stime acc a = .error e) :
    e = .unknownLine ∨ e = .overflow := by
  simp only [birthStep] at h
  split at h
  case _ heq =>
    cases h
    rcases updateAtDate_err heq with h1 | ⟨pv, hpv⟩
    · exact Or.inl h1
    · revert hpv
      split
      · intro hpv; cases hpv; exact Or.inr (pvAddFst_err (by assumption))
      · intro hpv; exact Or.inr (pvAddFst_err hpv)
  case _ => cases h

theorem runBirths_err {fs : List Filter'} {ct ms : Nat} {stime : Int}
    {bs : List Alloc} {acc : BuildAcc} {fa : Option Nat} {e : Err}
    (h : (runBirths fs ct ms stime acc bs fa).2 = some e) :
    e = .srcError ∨ e = .unknownLine ∨ e = .overflow := by
  induction bs generalizing acc fa with
  | nil =>
    simp only [runBirths] at h
    by_cases hfa : fa = some 0
    · rw [if_pos hfa] at h
      cases h; exact Or.inl rfl
    · rw [if_neg hfa] at h
      cases h
  | cons a rest ih =>
    simp only [runBirths] at h
    by_cases hfa : fa = some 0
    · rw [if_pos hfa] at h
      cases h; exact Or.inl rfl
    · rw [if_neg hfa] at h
      split at h
      · cases h; rcases birthStep_err (by assumption) with h1 | h1
        · exact Or.inr (Or.inl h1)
        · exact Or.inr (Or.inr h1)
      · exact ih h

theorem getAlloc_err {allocs : List (Nat × Alloc)} {u : Nat} {e : Err}
    (h : getAlloc allocs u = .error e) : e = .consistency := by
  induction allocs with
  | nil => cases h; rfl
  | cons kv rest ih =>
    obtain ⟨k, a⟩ := kv
    simp only [getAlloc] at h
    split at h
    · cases h
    · exact ih h

theorem deathUids_err {fs : List Filter'} {stime : Int} {adj : Nat}
    {allocs : List (Nat × Alloc)} {us : List Nat} {acc : BuildAcc} {e : Err}
    (h : (deathUids fs stime adj allocs acc us).2 = some e) :
    e = .consistency ∨ e = .unknownLine ∨ e = .overflow := by
  induction us generalizing acc with
  | nil => cases h
  | cons u rest ih =>
    simp only [deathUids] at h
    split at h
    · cases h; exact Or.inl (getAlloc_err (by assumption))
    · split at h
      case _ heq =>
        cases h
        rcases updateAtDate_err heq with h1 | ⟨pv, hpv⟩
        · exact Or.inr (Or.inl h1)
        · revert hpv
          split
          · intro hpv; cases hpv
            rcases pvAddSnd_err (by assumption) with h2 | h2
            · exact Or.inr (Or.inr h2)
            · exact Or.inr (Or.inl h2)
          · intro hpv
            rcases pvAddSnd_err hpv with h2 | h2
            · exact Or.inr (Or.inr h2)
            · exact Or.inr (Or.inl h2)
      case _ => exact ih h

theorem runDeaths_err {fs : List Filter'} {ms : Nat} {stime : Int}
    {allocs : List (Nat × Alloc)} {ds : List (List Nat × Nat)} {acc : BuildAcc} {e : Err}
    (h : (runDeaths fs ms stime allocs acc ds).2 = some e) :
    e = .consistency ∨ e = .unknownLine ∨ e = .overflow := by
  induction ds generalizing acc with
  | nil => cases h
  | cons g rest ih =>
    simp only [runDeaths] at h
    split at h
    case _ acc' e' heq =>
      cases h
      simp only [deathStep] at heq
      split at heq
      · cases heq
      · exact deathUids_err (congrArg Prod.snd heq)
    case _ acc' heq => exact ih h

theorem get_allocs_fail_timestamp {st : TimeSize} {fs : List Filter'} {init : Bool}
    {res : Resolution} {src : SourceData} :
    ∀ {st' : TimeSize} {e : Err}, st.get_allocs fs init res src = (st', some e) →
      st'.timestamp = st.timestamp := by
  intro st' e h
  simp only [TimeSize.get_allocs] at h
  split at h
  · cases h; rfl
  · split at h
    · cases h; rfl
    · split at h
      · cases h; rfl
      · injection h with h1 h2; cases h2

theorem get_allocs_divByZero {st : TimeSize} {fs : List Filter'} {init : Bool}
    {res : Resolution} {src : SourceData} (hw : res.width / 200 = 0) :
    (st.get_allocs fs init res src).2 = some .divByZero := by
  simp [TimeSize.get_allocs, hw]

theorem get_allocs_ne_divByZero {st : TimeSize} {fs : List Filter'} {init : Bool}
    {res : Resolution} {src : SourceData} (hw : res.width / 200 ≠ 0) :
    (st.get_allocs fs init res src).2 ≠ some .divByZero := by
  intro h
  simp only [TimeSize.get_allocs, if_neg hw] at h
  split at h
  case _ acc1 e heq =>
    simp only at h
    cases h
    rcases runBirths_err (congrArg Prod.snd heq) with h1 | h1 | h1 <;> cases h1
  case _ acc1 heq =>
    split at h
    case _ acc3 e heq2 =>
      simp only at h
      cases h
      rcases runDeaths_err (congrArg Prod.snd heq2) with h1 | h1 | h1 <;> cases h1
    case _ acc3 heq2 => simp at h

/-! ## Claim C10 — the width / 200 divisor -/

/-- Claim C10: `get_allocs` divides the current stream time by
`width / 200` (integer division).  For every resolution with width at least
200 the divisor is nonzero and the call never fails with the
division-by-zero panic; for any width strictly below 200 the quotient
`width / 200` is zero and the call always fails with the division-by-zero
panic — an unstated width ≥ 200 precondition. -/
theorem width_precondition (st : TimeSize) (fs : List Filter') (init : Bool)
    (res : Resolution) (src : SourceData) :
    (200 ≤ res.width → res.width / 200 ≠ 0 ∧
      (st.get_allocs fs init res src).2 ≠ some .divByZero) ∧
    (res.width < 200 → res.width / 200 = 0 ∧
      (st.get_allocs fs init res src).2 = some .divByZero) := by
  constructor
  · intro hw
    have hdiv : res.width / 200 ≠ 0 := by
      have := (Nat.one_le_div_iff (by norm_num : 0 < 200)).mpr hw
      omega
    exact ⟨hdiv, get_allocs_ne_divByZero hdiv⟩
  · intro hw
    have hdiv : res.width / 200 = 0 := Nat.div_eq_of_lt hw
    exact ⟨hdiv, get_allocs_divByZero hdiv⟩

/-- Witness for `width_precondition`: widths 200 and 199 on a fresh
aggregator and an empty source. -/
theorem width_precondition_witness :
    ((200 : Nat) / 200 ≠ 0 ∧
      ((TimeSize.new []).get_allocs [] false ⟨200, 0⟩ ⟨0, 0, [], [], [], none⟩).2 ≠
        some .divByZero) ∧
    ((199 : Nat) / 200 = 0 ∧
      ((TimeSize.new []).get_allocs [] false ⟨199, 0⟩ ⟨0, 0, [], [], [], none⟩).2 =
        some .divByZero) :=
  ⟨(width_precondition (TimeSize.new []) [] false ⟨200, 0⟩ ⟨0, 0, [], [], [], none⟩).1
      (by norm_num),
   (width_precondition (TimeSize.new []) [] false ⟨199, 0⟩ ⟨0, 0, [], [], [], none⟩).2
      (by norm_num)⟩

/-! ## Claim C2 — single-point border synthesis -/

/-- Claim C2 counterexample: ingesting exactly one birth of size 5 at time
0 (stream time 10, width 200, origin date 0) flushes to the three points
`(−10⁹ ns, 0)`, `(0, 5)`, `(+10⁹ ns, 0)`: the borders sit one **second**
away (the source shifts the `secs` component of the timestamp), and the
after-border is a clone of the **zeroed** point, not a duplicate of the
real point — refuting both the ±1 ns offsets and the duplicated value. -/
theorem single_point_borders_cex :
    ((TimeSize.new []).new_points [] false ⟨200, 100⟩ ⟨0, 10, [⟨0, 5, 0, []⟩], [], [], none⟩).2 =
      .ok [((-1000000000 : Int), [(Line.everything, 0), (Line.catchAll, 0)]),
           (0, [(Line.everything, 5), (Line.catchAll, 5)]),
           (1000000000, [(Line.everything, 0), (Line.catchAll, 0)])] ∧
    ((TimeSize.new []).new_points [] false ⟨200, 100⟩ ⟨0, 10, [⟨0, 5, 0, []⟩], [], [], none⟩).2 ≠
      .ok [((-1 : Int), [(Line.everything, 0), (Line.catchAll, 0)]),
           (0, [(Line.everything, 5), (Line.catchAll, 5)]),
           (1, [(Line.everything, 5), (Line.catchAll, 5)])] := by
  constructor
  · rfl
  · intro h
    have h1 : ((TimeSize.new []).new_points [] false ⟨200, 100⟩
        ⟨0, 10, [⟨0, 5, 0, []⟩], [], [], none⟩).2 =
      .ok [((-1000000000 : Int), [(Line.everything, 0), (Line.catchAll, 0)]),
           (0, [(Line.everything, 5), (Line.catchAll, 5)]),
           (1000000000, [(Line.everything, 0), (Line.catchAll, 0)])] := rfl
    rw [h1] at h
    simp at h

/-! ## Claim C7 — underflow through death coalescing -/

/-- Claim C7 counterexample: a well-formed stream (each death after its
birth) on which the per-bucket subtraction underflows.  Cycle 1 ingests and
flushes the birth of allocation 1 (size 10, toc 0); cycle 2 (stream time
20, width 4000, so `min_spacing` = 1) ingests the birth of allocation 2
(size 7, toc 5, opening bucket 5) and the deaths of both allocations: the
death at tod 4 opens bucket 4 and the death at tod 6 coalesces into bucket
4, before allocation 2's own birth bucket — flushing bucket 4 computes
`10 + 0 − 17` and underflows even though ingest itself succeeded. -/
theorem flush_underflow_cex :
    (((((TimeSize.new []).new_points [] false ⟨4000, 100⟩
          ⟨0, 3, [⟨1, 10, 0, []⟩], [], [(1, ⟨1, 10, 0, []⟩)], none⟩).1).get_allocs [] false
        ⟨4000, 100⟩
        ⟨0, 20, [⟨2, 7, 5, []⟩], [([1], 4), ([2], 6)],
          [(1, ⟨1, 10, 0, []⟩), (2, ⟨2, 7, 5, []⟩)], none⟩).2 = none) ∧
    ((((((TimeSize.new []).new_points [] false ⟨4000, 100⟩
          ⟨0, 3, [⟨1, 10, 0, []⟩], [], [(1, ⟨1, 10, 0, []⟩)], none⟩).1).get_allocs [] false
        ⟨4000, 100⟩
        ⟨0, 20, [⟨2, 7, 5, []⟩], [([1], 4), ([2], 6)],
          [(1, ⟨1, 10, 0, []⟩), (2, ⟨2, 7, 5, []⟩)], none⟩).1).generate_points).2 =
      .error .underflow := by
  constructor
  · rfl
  · rfl

/-! ## Claim C5 — failed ingest and retry -/

/-- Claim C5 counterexample: with one birth of size 5 and a source read
that fails right after delivering it, ingest fails with the cursor left at
0 and the bucket already holding the contribution 5; a retried ingest over
the same events merges the same contribution again — the bucket now holds
10, so the (date, line) contribution is counted twice, refuting the claimed
idempotence. -/
theorem retry_double_counts_cex :
    (((TimeSize.new []).get_allocs [] false ⟨200, 100⟩
        ⟨0, 10, [⟨3, 5, 2, []⟩], [], [], some 1⟩).2 = some .srcError) ∧
    (((TimeSize.new []).get_allocs [] false ⟨200, 100⟩
        ⟨0, 10, [⟨3, 5, 2, []⟩], [], [], some 1⟩).1.timestamp = 0) ∧
    (((TimeSize.new []).get_allocs [] false ⟨200, 100⟩
        ⟨0, 10, [⟨3, 5, 2, []⟩], [], [], some 1⟩).1.map =
      [(10, [(Line.everything, (5, 0)), (Line.catchAll, (5, 0))])]) ∧
    ((((TimeSize.new []).get_allocs [] false ⟨200, 100⟩
          ⟨0, 10, [⟨3, 5, 2, []⟩], [], [], some 1⟩).1.get_allocs [] false ⟨200, 100⟩
        ⟨0, 10, [⟨3, 5, 2, []⟩], [], [], none⟩).1.map =
      [(10, [(Line.everything, (10, 0)), (Line.catchAll, (10, 0))])]) ∧
    (10 : Nat) ≠ 5 := by
  refine ⟨rfl, rfl, rfl, rfl, by decide⟩

/-! ## Births-only invariant: removed components stay zero -/

/-- All `removed` components in a pending map are zero (the state of a map
built from birth events only). -/
def BucketsSndZero (m : List (Int × PointVal (Nat × Nat))) : Prop :=
  ∀ d pv, (d, pv) ∈ m → ∀ l ar, (l, ar) ∈ pv → ar.2 = 0

theorem u32chk_ok_val {n v : Nat} (h : u32chk n = .ok v) : v = n := by
  unfold u32chk at h
  split at h
  · cases h; rfl
  · cases h

theorem pvAddFst_ok_eq {pv pv' : PointVal (Nat × Nat)} {l : Line} {s : Nat}
    (h : pvAddFst pv l s = .ok pv') : pv' = pvAddFstP pv l s := by
  induction pv generalizing pv' with
  | nil =>
    simp only [pvAddFst] at h
    split at h
    · cases h
    · cases h
      have := u32chk_ok_val (by assumption)
      simp [pvAddFstP, this]
  | cons kv rest ih =>
    obtain ⟨k, ar⟩ := kv
    simp only [pvAddFst] at h
    by_cases hk : k = l
    · rw [if_pos hk] at h
      split at h
      · cases h
      · cases h
        have := u32chk_ok_val (by assumption)
        simp [pvAddFstP, hk, this]
    · rw [if_neg hk] at h
      split at h
      · cases h
      · cases h
        simp [pvAddFstP, hk, ih (by assumption)]

theorem PointVal.getOr_snd_zero {pv : PointVal (Nat × Nat)}
    (h : ∀ l ar, (l, ar) ∈ pv → ar.2 = 0) (l : Line) : (pv.getOr l (0, 0)).2 = 0 := by
  unfold PointVal.getOr
  match hf : pv.find l with
  | some v => exact h l v (PointVal.find_mem hf)
  | none => rfl

theorem pvAddFstP_snd_zero {pv : PointVal (Nat × Nat)} {l0 : Line} {s : Nat}
    (h : ∀ l ar, (l, ar) ∈ pv → ar.2 = 0) :
    ∀ l ar, (l, ar) ∈ pvAddFstP pv l0 s → ar.2 = 0 := by
  intro l ar hmem
  rcases pvAddFstP_mem hmem with hin | ⟨_, har⟩
  · exact h l ar hin
  · rw [har]
    exact PointVal.getOr_snd_zero h l0

theorem entryOrInsert_mem {m : List (Int × β)} {d d' : Int} {v pv' : β}
    (h : (d', pv') ∈ entryOrInsert m d v) : (d', pv') ∈ m ∨ pv' = v := by
  induction m with
  | nil =>
    simp only [entryOrInsert, List.mem_singleton] at h
    exact Or.inr (congrArg Prod.snd h)
  | cons kv rest ih =>
    obtain ⟨k, w⟩ := kv
    simp only [entryOrInsert] at h
    by_cases h1 : d < k
    · rw [if_pos h1] at h
      rcases List.mem_cons.mp h with heq | hmem
      · exact Or.inr (congrArg Prod.snd heq)
      · exact Or.inl hmem
    · rw [if_neg h1] at h
      by_cases h2 : d = k
      · rw [if_pos h2] at h
        exact Or.inl h
      · rw [if_neg h2] at h
        rcases List.mem_cons.mp h with heq | hmem
        · exact Or.inl (List.mem_cons.mpr (Or.inl heq))
        · rcases ih hmem with hin | hv
          · exact Or.inl (List.mem_cons_of_mem _ hin)
          · exact Or.inr hv

theorem updateAtDate_ok_mem {m m' : List (Int × β)} {d : Int} {f : β → Except Err β}
    (h : updateAtDate m d f = .ok m') :
    ∀ d' pv', (d', pv') ∈ m' → (d', pv') ∈ m ∨ ∃ pv, (d', pv) ∈ m ∧ f pv = .ok pv' := by
  induction m generalizing m' with
  | nil => cases h
  | cons kv rest ih =>
    obtain ⟨k, w⟩ := kv
    simp only [updateAtDate] at h
    by_cases hk : k = d
    · rw [if_pos hk] at h
      split at h
      · cases h
      · cases h
        intro d' pv' hmem
        rcases List.mem_cons.mp hmem with heq | hmem'
        · have h1 : d' = k := congrArg Prod.fst heq
          have h2 : pv' = _ := congrArg Prod.snd heq
          exact Or.inr ⟨w, by simp [h1], by rw [h2]; assumption⟩
        · exact Or.inl (List.mem_cons_of_mem _ hmem')
    · rw [if_neg hk] at h
      split at h
      · cases h
      · cases h
        intro d' pv' hmem
        rcases List.mem_cons.mp hmem with heq | hmem'
        · exact Or.inl (List.mem_cons.mpr (Or.inl heq))
        · rcases ih (by assumption) d' pv' hmem' with hin | ⟨pv, hpv, hf⟩
          · exact Or.inl (List.mem_cons_of_mem _ hin)
          · exact Or.inr ⟨pv, List.mem_cons_of_mem _ hpv, hf⟩

theorem birthStep_map_snd_zero {fs : List Filter'} {ct ms : Nat} {stime : Int}
    {acc acc' : BuildAcc} {a : Alloc} (h : birthStep fs ct ms stime acc a = .ok acc')
    (hz : BucketsSndZero acc.map) : BucketsSndZero acc'.map := by
  simp only [birthStep] at h
  split at h
  case _ => cases h
  case _ m heq =>
    cases h
    intro d pv hmem l ar har
    rcases updateAtDate_ok_mem heq d pv hmem with hin | ⟨pv0, hpv0, hf⟩
    · rcases entryOrInsert_mem hin with hin' | hv
      · exact hz d pv hin' l ar har
      · rw [hv] at har
        exact PointVal.new_mem har ▸ rfl
    · have hz0 : ∀ l ar, (l, ar) ∈ pv0 → ar.2 = 0 := by
        intro l' ar' hm'
        rcases entryOrInsert_mem hpv0 with hin' | hv
        · exact hz _ _ hin' l' ar' hm'
        · rw [hv] at hm'
          exact PointVal.new_mem hm' ▸ rfl
      revert hf
      split
      next e0 heq0 => intro hf; cases hf
      next pv1 heq0 =>
        intro hf
        have e1 := pvAddFst_ok_eq heq0
        have e2 := pvAddFst_ok_eq hf
        rw [e2, e1] at har
        exact pvAddFstP_snd_zero (pvAddFstP_snd_zero hz0) l ar har

theorem runBirths_map_snd_zero {fs : List Filter'} {ct ms : Nat} {stime : Int}
    {bs : List Alloc} {acc : BuildAcc} {fa : Option Nat}
    (hz : BucketsSndZero acc.map) :
    BucketsSndZero (runBirths fs ct ms stime acc bs fa).1.map := by
  induction bs generalizing acc fa with
  | nil =>
    simp only [runBirths]
    by_cases hfa : fa = some 0
    · rw [if_pos hfa]; exact hz
    · rw [if_neg hfa]; exact hz
  | cons a rest ih =>
    simp only [runBirths]
    by_cases hfa : fa = some 0
    · rw [if_pos hfa]; exact hz
    · rw [if_neg hfa]
      split
      · exact hz
      · exact ih (birthStep_map_snd_zero (by assumption) hz)

theorem get_allocs_map_snd_zero {st : TimeSize} {fs : List Filter'} {init : Bool}
    {res : Resolution} {src : SourceData} (hz : BucketsSndZero st.map)
    (hdeaths : src.deaths = []) :
    BucketsSndZero (st.get_allocs fs init res src).1.map := by
  have hmap0 : BucketsSndZero
      (if init then
        entryOrInsert st.map (src.startTime + ((0 : Nat) : Int)) (PointVal.new (0, 0) fs)
      else st.map) := by
    split
    · intro d pv hmem l ar har
      rcases entryOrInsert_mem hmem with hin | hv
      · exact hz d pv hin l ar har
      · rw [hv] at har
        exact PointVal.new_mem har ▸ rfl
    · exact hz
  simp only [TimeSize.get_allocs]
  split
  · exact hmap0
  · split
    case _ acc1 e heq =>
      have hb := @runBirths_map_snd_zero fs src.currentTime
        (minTimeSpacing src.currentTime res.width) src.startTime
        (src.births.filter fun a => decide (st.timestamp ≤ a.toc))
        ⟨if init = true then
            entryOrInsert st.map (src.startTime + ((0 : Nat) : Int)) (PointVal.new (0, 0) fs)
          else st.map, some src.currentTime, false⟩
        src.failBirthsAfter hmap0
      rw [heq] at hb
      exact hb
    case _ acc1 heq =>
      have hb := @runBirths_map_snd_zero fs src.currentTime
        (minTimeSpacing src.currentTime res.width) src.startTime
        (src.births.filter fun a => decide (st.timestamp ≤ a.toc))
        ⟨if init = true then
            entryOrInsert st.map (src.startTime + ((0 : Nat) : Int)) (PointVal.new (0, 0) fs)
          else st.map, some src.currentTime, false⟩
        src.failBirthsAfter hmap0
      rw [heq] at hb
      have hds : src.deaths.filter (fun g => decide (st.timestamp ≤ g.2)) = [] := by
        rw [hdeaths]; rfl
      rw [hds]
      split
      case _ acc3 e heq2 =>
        simp only [runDeaths] at heq2
        cases heq2
      case _ acc3 heq2 =>
        simp only [runDeaths] at heq2
        cases heq2
        exact hb

theorem mapPoints_ne_underflow {size : PointVal Nat} {pv : PointVal (Nat × Nat)}
    (h : ∀ l ar, (l, ar) ∈ pv → ar.2 = 0) :
    mapPoints size pv ≠ .error .underflow := by
  induction pv with
  | nil => intro hc; cases hc
  | cons kv rest ih =>
    obtain ⟨k, ar⟩ := kv
    have hk := h k ar (List.mem_cons_self _ _)
    have hrest := fun l ar' hm => h l ar' (List.mem_cons_of_mem _ hm)
    intro hc
    simp only [mapPoints] at hc
    split at hc
    next e heq =>
      cases hc
      exact absurd (u32chk_err heq) (by decide)
    next sum heq =>
      rw [hk, if_pos (Nat.zero_le _)] at hc
      split at hc
      next e2 heq2 => cases hc; exact ih hrest heq2
      next => cases hc

theorem genLoop_ne_underflow {bs : List (Int × PointVal (Nat × Nat))}
    (h : BucketsSndZero bs) : ∀ st pts, (genLoop st bs pts).2 ≠ .error .underflow := by
  induction bs with
  | nil => intro st pts hc; cases hc
  | cons b rest ih =>
    obtain ⟨d, pv⟩ := b
    intro st pts hc
    simp only [genLoop] at hc
    split at hc
    next e heq =>
      cases hc
      exact mapPoints_ne_underflow (h d pv (List.mem_cons_self _ _)) heq
    next pv' heq =>
      exact ih (fun d2 pv2 hm => h d2 pv2 (List.mem_cons_of_mem _ hm)) _ _ hc

theorem generate_points_ne_underflow {st : TimeSize} (h : BucketsSndZero st.map) :
    (st.generate_points).2 ≠ .error .underflow := by
  intro hc
  simp only [TimeSize.generate_points] at hc
  split at hc
  next st' e heq =>
    simp only at hc
    cases hc
    exact genLoop_ne_underflow h _ _ (congrArg Prod.snd heq)
  next st' pts heq => cases hc

/-- Claim C7 (corrected): all running totals are unsigned naturals, and for
every flush after an ingest over a stream with no death events the
per-bucket computation `baseline + added − removed` never underflows (every
`removed` component is zero).  With death events the property fails:
coalescing can bucket a death at an earlier date than its matching birth,
and the subtraction underflows even on a well-formed stream (see the
counterexample). -/
theorem births_only_no_underflow (st : TimeSize) (fs : List Filter') (init : Bool)
    (res : Resolution) (src : SourceData)
    (hz : BucketsSndZero st.map) (hdeaths : src.deaths = []) :
    (((st.get_allocs fs init res src).1).generate_points).2 ≠ .error .underflow :=
  generate_points_ne_underflow (get_allocs_map_snd_zero hz hdeaths)

/-- Witness for `births_only_no_underflow`: a fresh aggregator ingesting
one birth of size 5 and no deaths. -/
theorem births_only_no_underflow_witness :
    ((((TimeSize.new []).get_allocs [] false ⟨200, 100⟩
        ⟨0, 10, [⟨1, 5, 2, []⟩], [], [], none⟩).1).generate_points).2 ≠ .error .underflow :=
  births_only_no_underflow (TimeSize.new []) [] false ⟨200, 100⟩
    ⟨0, 10, [⟨1, 5, 2, []⟩], [], [], none⟩
    (fun _ _ hm => absurd hm (List.not_mem_nil _)) rfl

theorem lineOfMatch_ne_everything (o : Option Nat) : lineOfMatch o ≠ .everything := by
  cases o <;> simp [lineOfMatch]

theorem get_allocs_single_birth (st : TimeSize) (fs : List Filter') (res : Resolution)
    (src : SourceData) (a : Alloc)
    (hm : st.map = []) (hb : src.births = [a]) (hd : src.deaths = [])
    (hfa : src.failBirthsAfter = none) (hw : res.width / 200 ≠ 0)
    (htoc : st.timestamp ≤ a.toc) (hs : a.size < 2 ^ 32) :
    st.get_allocs fs false res src =
      ({ st with
          map := [(src.startTime +
              (((coalesce (some src.currentTime) a.toc
                  (minTimeSpacing src.currentTime res.width)).1 : Nat) : Int),
            pvAddFstP
              (pvAddFstP (PointVal.new (0, 0) fs)
                (lineOfMatch (findLiveMatch fs src.currentTime a)) a.size)
              .everything a.size)]
          last_time_stamp := some src.currentTime
          timestamp := src.currentTime + 1 }, none) := by
  have hzadd : (0 : Nat) + a.size < 2 ^ 32 := by omega
  have h1 : ((PointVal.new ((0 : Nat), (0 : Nat)) fs).getOr
      (lineOfMatch (findLiveMatch fs src.currentTime a)) (0, 0)).1 + a.size < 2 ^ 32 := by
    rw [PointVal.new_getOr]
    exact hzadd
  have hne := lineOfMatch_ne_everything (findLiveMatch fs src.currentTime a)
  have h2 : ((pvAddFstP (PointVal.new ((0 : Nat), (0 : Nat)) fs)
      (lineOfMatch (findLiveMatch fs src.currentTime a)) a.size).getOr
      .everything (0, 0)).1 + a.size < 2 ^ 32 := by
    unfold PointVal.getOr
    rw [pvAddFstP_find_other _ _ (fun hh => hne hh.symm), PointVal.new_find_everything]
    exact hzadd
  simp only [TimeSize.get_allocs, if_neg hw, hb, hd, hfa, hm, Bool.false_eq_true, if_false,
    List.filter, htoc, decide_eq_true_eq, runBirths, birthStep, entryOrInsert, updateAtDate,
    if_pos rfl, pvAddFst_eq_ok h1, pvAddFst_eq_ok h2, runDeaths]
  simp

theorem PointVal.getOr_eq_find (pv : PointVal α) (l : Line) (d : α) :
    pv.getOr l d = match pv.find l with | some v => v | none => d := rfl

/-! ## Claim C1 — a birth adds exactly its size -/

/-- Claim C1: for a birth event of size `a.size` that ingest matches to
line `L` via `find_live_match` (else the catch-all), the next flush
increases both `baseline[L]` and `baseline[Everything]` by exactly
`a.size` relative to their pre-ingest values, and by no other amount
(stated as exact equalities). -/
theorem birth_flush_adds (st : TimeSize) (fs : List Filter') (res : Resolution)
    (src : SourceData) (a : Alloc)
    (hm : st.map = []) (hb : src.births = [a]) (hd : src.deaths = [])
    (hfa : src.failBirthsAfter = none) (hw : res.width / 200 ≠ 0)
    (htoc : st.timestamp ≤ a.toc)
    (hbase : ∀ l, st.size.getOr l 0 < 2 ^ 32)
    (hofL : st.size.getOr (lineOfMatch (findLiveMatch fs src.currentTime a)) 0 + a.size <
      2 ^ 32)
    (hofE : st.size.getOr .everything 0 + a.size < 2 ^ 32) :
    (∃ pts, (st.new_points fs false res src).2 = .ok pts) ∧
    (st.new_points fs false res src).1.size.getOr
        (lineOfMatch (findLiveMatch fs src.currentTime a)) 0 =
      st.size.getOr (lineOfMatch (findLiveMatch fs src.currentTime a)) 0 + a.size ∧
    (st.new_points fs false res src).1.size.getOr .everything 0 =
      st.size.getOr .everything 0 + a.size := by
  have hs : a.size < 2 ^ 32 := by
    have := hofE; omega
  have hGA := get_allocs_single_birth st fs res src a hm hb hd hfa hw htoc hs
  -- names for the bucket's point value and its layers
  set uid := lineOfMatch (findLiveMatch fs src.currentTime a) with huid
  have hne : uid ≠ Line.everything := lineOfMatch_ne_everything _
  set pv0 : PointVal (Nat × Nat) := PointVal.new (0, 0) fs with hpv0
  set pv1 : PointVal (Nat × Nat) := pvAddFstP pv0 uid a.size with hpv1
  set pv2 : PointVal (Nat × Nat) := pvAddFstP pv1 Line.everything a.size with hpv2
  -- lookups inside the bucket
  have hfind1 : pv1.find uid = some (0 + a.size, 0) := by
    rw [hpv1, pvAddFstP_find_self, hpv0, PointVal.new_getOr]
  have hfind1e : pv1.find Line.everything = some (0, 0) := by
    rw [hpv1, pvAddFstP_find_other _ _ (fun hh => hne hh.symm), hpv0,
      PointVal.new_find_everything]
  have hgetOr1e : pv1.getOr Line.everything (0, 0) = (0, 0) := by
    unfold PointVal.getOr
    rw [hfind1e]
  have hfind2u : pv2.find uid = some (0 + a.size, 0) := by
    rw [hpv2, pvAddFstP_find_other _ _ hne, hfind1]
  have hfind2e : pv2.find Line.everything = some (0 + a.size, 0) := by
    rw [hpv2, pvAddFstP_find_self, hgetOr1e]
  -- every bucket entry is within bounds for the flush recomputation
  have hbound : ∀ l ar, (l, ar) ∈ pv2 →
      st.size.getOr l 0 + ar.1 < 2 ^ 32 ∧ ar.2 ≤ st.size.getOr l 0 + ar.1 := by
    intro l ar hmem
    have hclass : ar = (0, 0) ∨ (l = uid ∧ ar = (0 + a.size, 0)) ∨
        (l = Line.everything ∧ ar = (0 + a.size, 0)) := by
      rcases pvAddFstP_mem hmem with hin1 | ⟨hl, har⟩
      · rcases pvAddFstP_mem hin1 with hin0 | ⟨hl, har⟩
        · exact Or.inl (PointVal.new_mem hin0)
        · refine Or.inr (Or.inl ⟨hl, ?_⟩)
          rw [har, hpv0, PointVal.new_getOr]
      · refine Or.inr (Or.inr ⟨hl, ?_⟩)
        rw [har, hgetOr1e]
    rcases hclass with har | ⟨hl, har⟩ | ⟨hl, har⟩
    · rw [har]
      refine ⟨?_, ?_⟩
      · show st.size.getOr l 0 + 0 < 2 ^ 32
        have := hbase l
        omega
      · show (0 : Nat) ≤ st.size.getOr l 0 + 0
        omega
    · rw [har, hl]
      refine ⟨?_, ?_⟩
      · show st.size.getOr uid 0 + (0 + a.size) < 2 ^ 32
        omega
      · show (0 : Nat) ≤ st.size.getOr uid 0 + (0 + a.size)
        omega
    · rw [har, hl]
      refine ⟨?_, ?_⟩
      · show st.size.getOr Line.everything 0 + (0 + a.size) < 2 ^ 32
        omega
      · show (0 : Nat) ≤ st.size.getOr Line.everything 0 + (0 + a.size)
        omega
  have hMP := mapPoints_eq_ok hbound
  -- run the flush
  simp only [TimeSize.new_points, hGA, TimeSize.generate_points, genLoop, hMP]
  refine ⟨⟨_, rfl⟩, ?_, ?_⟩
  · rw [PointVal.getOr_eq_find, mapPointsP_find, hfind2u]
    simp
  · rw [PointVal.getOr_eq_find, mapPointsP_find, hfind2e]
    simp

/-- Witness for `birth_flush_adds`: one filter (uid 7, size ≥ 3), one birth
of size 5 at toc 2, stream time 10, width 200, fresh baseline. -/
theorem birth_flush_adds_witness :
    (∃ pts, ((TimeSize.new [⟨7, [.size (.cmp .ge 3)]⟩]).new_points [⟨7, [.size (.cmp .ge 3)]⟩]
        false ⟨200, 100⟩ ⟨0, 10, [⟨1, 5, 2, []⟩], [], [], none⟩).2 = .ok pts) ∧
    ((TimeSize.new [⟨7, [.size (.cmp .ge 3)]⟩]).new_points [⟨7, [.size (.cmp .ge 3)]⟩]
        false ⟨200, 100⟩ ⟨0, 10, [⟨1, 5, 2, []⟩], [], [], none⟩).1.size.getOr
        (lineOfMatch (findLiveMatch [⟨7, [.size (.cmp .ge 3)]⟩] 10 ⟨1, 5, 2, []⟩)) 0 =
      (TimeSize.new [⟨7, [.size (.cmp .ge 3)]⟩]).size.getOr
        (lineOfMatch (findLiveMatch [⟨7, [.size (.cmp .ge 3)]⟩] 10 ⟨1, 5, 2, []⟩)) 0 + 5 ∧
    ((TimeSize.new [⟨7, [.size (.cmp .ge 3)]⟩]).new_points [⟨7, [.size (.cmp .ge 3)]⟩]
        false ⟨200, 100⟩ ⟨0, 10, [⟨1, 5, 2, []⟩], [], [], none⟩).1.size.getOr .everything 0 =
      (TimeSize.new [⟨7, [.size (.cmp .ge 3)]⟩]).size.getOr .everything 0 + 5 :=
  birth_flush_adds (TimeSize.new [⟨7, [.size (.cmp .ge 3)]⟩]) [⟨7, [.size (.cmp .ge 3)]⟩]
    ⟨200, 100⟩ ⟨0, 10, [⟨1, 5, 2, []⟩], [], [], none⟩ ⟨1, 5, 2, []⟩
    rfl rfl rfl rfl (by norm_num) (by decide)
    (fun l => by
      show PointVal.getOr (PointVal.new 0 [⟨7, [.size (.cmp .ge 3)]⟩]) l 0 < 2 ^ 32
      rw [PointVal.new_getOr]
      norm_num)
    (by decide) (by decide)

/-- Claim C5 (corrected): when the event-source read inside ingest fails,
the whole call fails with the cursor left unadvanced and the pending
buckets added during the failed attempt persist — but a retried ingest is
not idempotent: it processes the same events again and adds their
contributions a second time to the same (date, line) bucket, as the
exhibited run shows (added total `s + s` instead of `s`). -/
theorem ingest_fail_not_idempotent :
    (∀ (st : TimeSize) (fs : List Filter') (init : Bool) (res : Resolution)
        (src : SourceData) (st' : TimeSize) (e : Err),
        st.get_allocs fs init res src = (st', some e) → st'.timestamp = st.timestamp) ∧
    (∃ (st : TimeSize) (fs : List Filter') (res : Resolution) (src : SourceData)
        (d : Int) (s : Nat),
        (st.get_allocs fs false res src).2 = some .srcError ∧
        (st.get_allocs fs false res src).1.map =
          [(d, [(Line.everything, (s, 0)), (Line.catchAll, (s, 0))])] ∧
        ((st.get_allocs fs false res src).1.get_allocs fs false res
            { src with failBirthsAfter := none }).1.map =
          [(d, [(Line.everything, (s + s, 0)), (Line.catchAll, (s + s, 0))])] ∧
        s + s ≠ s) := by
  refine ⟨fun st fs init res src st' e h => get_allocs_fail_timestamp h, ?_⟩
  exact ⟨TimeSize.new [], [], ⟨200, 100⟩, ⟨0, 10, [⟨3, 5, 2, []⟩], [], [], some 1⟩, 10, 5,
    rfl, rfl, rfl, by decide⟩

/-- Witness for `ingest_fail_not_idempotent`: the cursor-preservation part
applied to a concrete failing ingest. -/
theorem ingest_fail_not_idempotent_witness :
    ((TimeSize.new []).get_allocs [] false ⟨200, 100⟩
        ⟨0, 10, [⟨3, 5, 2, []⟩], [], [], some 1⟩).1.timestamp =
      (TimeSize.new []).timestamp :=
  ingest_fail_not_idempotent.1 (TimeSize.new []) [] false ⟨200, 100⟩
    ⟨0, 10, [⟨3, 5, 2, []⟩], [], [], some 1⟩
    ((TimeSize.new []).get_allocs [] false ⟨200, 100⟩
      ⟨0, 10, [⟨3, 5, 2, []⟩], [], [], some 1⟩).1
    .srcError rfl

/-! ## Claim C6 — min spacing and the coalescing rule -/

theorem birthStep_nil_map {fs : List Filter'} {ct ms : Nat} {stime : Int} {acc : BuildAcc}
    {a : Alloc} (hm : acc.map = []) (hs : a.size < 2 ^ 32) :
    birthStep fs ct ms stime acc a = .ok
      ⟨[(stime + (((coalesce acc.lastTS a.toc ms).1 : Nat) : Int),
          pvAddFstP (pvAddFstP (PointVal.new (0, 0) fs) (lineOfMatch (findLiveMatch fs ct a))
            a.size) .everything a.size)],
        (coalesce acc.lastTS a.toc ms).2, true⟩ := by
  have hne := lineOfMatch_ne_everything (findLiveMatch fs ct a)
  have h1 : ((PointVal.new ((0 : Nat), (0 : Nat)) fs).getOr
      (lineOfMatch (findLiveMatch fs ct a)) (0, 0)).1 + a.size < 2 ^ 32 := by
    rw [PointVal.new_getOr]
    show 0 + a.size < 2 ^ 32
    omega
  have h2 : ((pvAddFstP (PointVal.new ((0 : Nat), (0 : Nat)) fs)
      (lineOfMatch (findLiveMatch fs ct a)) a.size).getOr .everything (0, 0)).1 +
      a.size < 2 ^ 32 := by
    rw [PointVal.getOr_eq_find, pvAddFstP_find_other _ _ (fun hh => hne hh.symm),
      PointVal.new_find_everything]
    show 0 + a.size < 2 ^ 32
    omega
  simp only [birthStep, hm, entryOrInsert, updateAtDate, if_pos rfl,
    pvAddFst_eq_ok h1, pvAddFst_eq_ok h2]
  simp

theorem birthStep_singleton {fs : List Filter'} {ct ms : Nat} {stime : Int} {acc : BuildAcc}
    {a : Alloc} {d0 : Int} {pv : PointVal (Nat × Nat)}
    (hm : acc.map = [(d0, pv)])
    (hd0 : stime + (((coalesce acc.lastTS a.toc ms).1 : Nat) : Int) = d0)
    (h1 : (pv.getOr (lineOfMatch (findLiveMatch fs ct a)) (0, 0)).1 + a.size < 2 ^ 32)
    (h2 : ((pvAddFstP pv (lineOfMatch (findLiveMatch fs ct a)) a.size).getOr
        .everything (0, 0)).1 + a.size < 2 ^ 32) :
    birthStep fs ct ms stime acc a = .ok
      ⟨[(d0, pvAddFstP (pvAddFstP pv (lineOfMatch (findLiveMatch fs ct a)) a.size)
          .everything a.size)],
        (coalesce acc.lastTS a.toc ms).2, true⟩ := by
  simp only [birthStep, hm, entryOrInsert, hd0]
  simp [updateAtDate, pvAddFst_eq_ok h1, pvAddFst_eq_ok h2]

/-- Claim C6: ingest computes `min_spacing = current_stream_time /
(display_width_px / 200)` (with width 200 this is the whole stream time);
the shared coalescing rule reuses the coalescing cursor's date when
`cursor − event_time < min_spacing` and otherwise opens a bucket at the
event's own time, resetting the cursor; and with width 200 and two birth
events 0.001 s (10⁶ ns) apart where `min_spacing` exceeds 0.001 s, both
events land in the same bucket date. -/
theorem coalescing_rule (st : TimeSize) (fs : List Filter') (src : SourceData) (a1 a2 : Alloc)
    (hm : st.map = []) (hts : st.timestamp = 0)
    (hb : src.births = [a1, a2]) (hd : src.deaths = []) (hfa : src.failBirthsAfter = none)
    (hgap : a2.toc = a1.toc + 1000000)
    (hct : 1000000 < src.currentTime)
    (hsz : a1.size + a2.size < 2 ^ 32) :
    (∀ ct : Nat, minTimeSpacing ct 200 = ct) ∧
    (∀ lts t ms2 : Nat,
      (lts - t < ms2 → coalesce (some lts) t ms2 = (lts, some lts)) ∧
      (ms2 ≤ lts - t → coalesce (some lts) t ms2 = (t, some t)) ∧
      coalesce none t ms2 = (t, some t)) ∧
    (∃ d pv, (st.get_allocs fs false ⟨200, 100⟩ src).1.map = [(d, pv)] ∧
      pv.find .everything = some (a1.size + a2.size, 0)) := by
  refine ⟨fun ct => by simp [minTimeSpacing],
    fun lts t ms2 =>
      ⟨fun h => by simp [coalesce, h],
       fun h => by simp [coalesce, Nat.not_lt.mpr h], rfl⟩, ?_⟩
  have hw : (200 : Nat) / 200 ≠ 0 := by norm_num
  have hms : minTimeSpacing src.currentTime 200 = src.currentTime := by simp [minTimeSpacing]
  set ct := src.currentTime with hctdef
  have hct0 : 0 < ct := by omega
  set uid1 := lineOfMatch (findLiveMatch fs ct a1) with huid1
  set uid2 := lineOfMatch (findLiveMatch fs ct a2) with huid2
  have hne1 : uid1 ≠ Line.everything := lineOfMatch_ne_everything _
  have hne2 : uid2 ≠ Line.everything := lineOfMatch_ne_everything _
  set pv0 : PointVal (Nat × Nat) := PointVal.new (0, 0) fs with hpv0
  set pvM : PointVal (Nat × Nat) := pvAddFstP pv0 uid1 a1.size with hpvM
  set pvA : PointVal (Nat × Nat) := pvAddFstP pvM Line.everything a1.size with hpvA
  set pvN : PointVal (Nat × Nat) := pvAddFstP pvA uid2 a2.size with hpvN
  set pvB : PointVal (Nat × Nat) := pvAddFstP pvN Line.everything a2.size with hpvB
  -- the two coalescing outcomes share one bucket-opening time
  have hcoal2 : (coalesce (coalesce (some ct) a1.toc ct).2 a2.toc ct).1 =
      (coalesce (some ct) a1.toc ct).1 := by
    by_cases h0 : ct - a1.toc < ct
    · have h2 : ct - a2.toc < ct := by omega
      simp [coalesce, h0, h2]
    · have h1z : a1.toc = 0 := by omega
      have h2 : a1.toc - a2.toc < ct := by omega
      simp [coalesce, h0, h2]
  -- bucket lookups
  have hMfind_e : pvM.find Line.everything = some (0, 0) := by
    rw [hpvM, pvAddFstP_find_other _ _ (fun hh => hne1 hh.symm), hpv0,
      PointVal.new_find_everything]
  have hAfind_e : pvA.find Line.everything = some (0 + a1.size, 0) := by
    rw [hpvA, pvAddFstP_find_self, PointVal.getOr_eq_find, hMfind_e]
  have hNfind_e : pvN.find Line.everything = some (0 + a1.size, 0) := by
    rw [hpvN, pvAddFstP_find_other _ _ (Ne.symm hne2), hAfind_e]
  have hBfind_e : pvB.find Line.everything = some (0 + a1.size + a2.size, 0) := by
    rw [hpvB, pvAddFstP_find_self, PointVal.getOr_eq_find, hNfind_e]
  -- overflow bounds for the second birth
  have h1 : (pvA.getOr uid2 (0, 0)).1 + a2.size < 2 ^ 32 := by
    rw [PointVal.getOr_eq_find, hpvA, pvAddFstP_find_other _ _ hne2]
    by_cases hu : uid2 = uid1
    · rw [hpvM, hu, pvAddFstP_find_self, hpv0, PointVal.new_getOr]
      show 0 + a1.size + a2.size < 2 ^ 32
      omega
    · rw [hpvM, pvAddFstP_find_other _ _ hu, hpv0]
      match hf : (PointVal.new ((0 : Nat), (0 : Nat)) fs).find uid2 with
      | some w =>
        have := PointVal.new_mem (PointVal.find_mem hf)
        rw [this]
        show 0 + a2.size < 2 ^ 32
        omega
      | none =>
        show 0 + a2.size < 2 ^ 32
        omega
  have h2 : (pvN.getOr Line.everything (0, 0)).1 + a2.size < 2 ^ 32 := by
    rw [PointVal.getOr_eq_find, hNfind_e]
    show 0 + a1.size + a2.size < 2 ^ 32
    omega
  -- run the two birth steps
  have hs1 : a1.size < 2 ^ 32 := by omega
  have hstep1 : birthStep fs ct ct src.startTime ⟨[], some ct, false⟩ a1 =
      .ok ⟨[(src.startTime + (((coalesce (some ct) a1.toc ct).1 : Nat) : Int), pvA)],
        (coalesce (some ct) a1.toc ct).2, true⟩ :=
    @birthStep_nil_map fs ct ct src.startTime ⟨[], some ct, false⟩ a1 rfl hs1
  have hstep2 : birthStep fs ct ct src.startTime
      ⟨[(src.startTime + (((coalesce (some ct) a1.toc ct).1 : Nat) : Int), pvA)],
        (coalesce (some ct) a1.toc ct).2, true⟩ a2 =
      .ok ⟨[(src.startTime + (((coalesce (some ct) a1.toc ct).1 : Nat) : Int), pvB)],
        (coalesce ((coalesce (some ct) a1.toc ct).2) a2.toc ct).2, true⟩ :=
    @birthStep_singleton fs ct ct src.startTime
      ⟨[(src.startTime + (((coalesce (some ct) a1.toc ct).1 : Nat) : Int), pvA)],
        (coalesce (some ct) a1.toc ct).2, true⟩ a2
      (src.startTime + (((coalesce (some ct) a1.toc ct).1 : Nat) : Int)) pvA rfl
      (by rw [hcoal2]) h1 h2
  have hrun : runBirths fs ct ct src.startTime ⟨[], some ct, false⟩ [a1, a2] none =
      (⟨[(src.startTime + (((coalesce (some ct) a1.toc ct).1 : Nat) : Int), pvB)],
        (coalesce ((coalesce (some ct) a1.toc ct).2) a2.toc ct).2, true⟩, none) := by
    simp only [runBirths, hstep1, hstep2]
    simp
  refine ⟨src.startTime + (((coalesce (some ct) a1.toc ct).1 : Nat) : Int), pvB, ?_, ?_⟩
  · simp only [TimeSize.get_allocs, if_neg hw, hb, hd, hfa, hm, hts, hms,
      Bool.false_eq_true, if_false, List.filter, Nat.zero_le, decide_True,
      ← hctdef, runDeaths]
    rw [hrun]
  · rw [hBfind_e]
    show some (0 + a1.size + a2.size, 0) = some (a1.size + a2.size, 0)
    rw [Nat.zero_add]

/-- Witness for `coalescing_rule`: width 200, stream time 2 ms, two births
of sizes 3 and 4 exactly 10⁶ ns apart. -/
theorem coalescing_rule_witness :
    (∀ ct : Nat, minTimeSpacing ct 200 = ct) ∧
    (∀ lts t ms2 : Nat,
      (lts - t < ms2 → coalesce (some lts) t ms2 = (lts, some lts)) ∧
      (ms2 ≤ lts - t → coalesce (some lts) t ms2 = (t, some t)) ∧
      coalesce none t ms2 = (t, some t)) ∧
    (∃ d pv, ((TimeSize.new []).get_allocs [] false ⟨200, 100⟩
        ⟨0, 2000000, [⟨1, 3, 500, []⟩, ⟨2, 4, 1000500, []⟩], [], [], none⟩).1.map =
          [(d, pv)] ∧
      pv.find .everything = some (3 + 4, 0)) :=
  coalescing_rule (TimeSize.new []) []
    ⟨0, 2000000, [⟨1, 3, 500, []⟩, ⟨2, 4, 1000500, []⟩], [], [], none⟩
    ⟨1, 3, 500, []⟩ ⟨2, 4, 1000500, []⟩
    rfl rfl rfl rfl rfl (by decide) (by decide) (by decide)

theorem borders_singleton (d : Int) (pv : PointVal Nat) :
    borders [(d, pv)] = [(d - 1000000000, pv.map fun kv => (kv.1, 0)), (d, pv),
      (d + 1000000000, pv.map fun kv => (kv.1, 0))] := by
  have h1 : (d / 1000000000 - 1) * 1000000000 + d % 1000000000 = d - 1000000000 := by omega
  have h2 : (d / 1000000000 + 1) * 1000000000 + d % 1000000000 = d + 1000000000 := by omega
  simp [borders, h1, h2]

theorem pv_map_zero_find (pv : PointVal Nat) (l : Line) :
    PointVal.find (pv.map fun kv => (kv.1, (0 : Nat))) l =
      (pv.find l).map fun _ => (0 : Nat) := by
  induction pv with
  | nil => simp [PointVal.find]
  | cons kv rest ih =>
    obtain ⟨k, v⟩ := kv
    by_cases hk : k = l
    · subst hk
      simp [PointVal.find]
    · simp [PointVal.find, hk, ih]

/-- Claim C2 (corrected): when flush produces exactly one point, it
synthesizes two zero-valued border points one **second** away on each side
(the source decomposes the timestamp and shifts its `secs` component by
one, and clones the zeroed point for both borders).  Ingesting exactly one
birth of size `s` with no other events on a fresh aggregator therefore
yields exactly the three points `(D − 1s, 0)`, `(D, s)`, `(D + 1s, 0)`,
where `D` is the event's bucket date. -/
theorem single_point_borders (fs : List Filter') (res : Resolution) (src : SourceData)
    (a : Alloc)
    (hb : src.births = [a]) (hd : src.deaths = []) (hfa : src.failBirthsAfter = none)
    (hw : res.width / 200 ≠ 0) (hs : a.size < 2 ^ 32) :
    ∃ (d : Int) (pv : PointVal Nat),
      ((TimeSize.new fs).new_points fs false res src).2 =
        .ok [(d - 1000000000, pv.map fun kv => (kv.1, 0)), (d, pv),
             (d + 1000000000, pv.map fun kv => (kv.1, 0))] ∧
      pv.find .everything = some a.size ∧
      PointVal.find (pv.map fun kv => (kv.1, (0 : Nat))) .everything = some 0 := by
  have hm : (TimeSize.new fs).map = [] := rfl
  have htoc : (TimeSize.new fs).timestamp ≤ a.toc := Nat.zero_le _
  have hGA := get_allocs_single_birth (TimeSize.new fs) fs res src a hm hb hd hfa hw htoc hs
  set uid := lineOfMatch (findLiveMatch fs src.currentTime a) with huid
  have hne : uid ≠ Line.everything := lineOfMatch_ne_everything _
  set pv0 : PointVal (Nat × Nat) := PointVal.new (0, 0) fs with hpv0
  set pv1 : PointVal (Nat × Nat) := pvAddFstP pv0 uid a.size with hpv1
  set pv2 : PointVal (Nat × Nat) := pvAddFstP pv1 Line.everything a.size with hpv2
  have hfind1e : pv1.find Line.everything = some (0, 0) := by
    rw [hpv1, pvAddFstP_find_other _ _ (fun hh => hne hh.symm), hpv0,
      PointVal.new_find_everything]
  have hgetOr1e : pv1.getOr Line.everything (0, 0) = (0, 0) := by
    rw [PointVal.getOr_eq_find, hfind1e]
  have hfind2e : pv2.find Line.everything = some (0 + a.size, 0) := by
    rw [hpv2, pvAddFstP_find_self, hgetOr1e]
  have hbase : ∀ l, (TimeSize.new fs).size.getOr l 0 = 0 := fun l => PointVal.new_getOr 0 fs l
  have hbound : ∀ l ar, (l, ar) ∈ pv2 →
      (TimeSize.new fs).size.getOr l 0 + ar.1 < 2 ^ 32 ∧
        ar.2 ≤ (TimeSize.new fs).size.getOr l 0 + ar.1 := by
    intro l ar hmem
    have hclass : ar = (0, 0) ∨ ar = (0 + a.size, 0) := by
      rcases pvAddFstP_mem hmem with hin1 | ⟨hl, har⟩
      · rcases pvAddFstP_mem hin1 with hin0 | ⟨hl, har⟩
        · exact Or.inl (PointVal.new_mem hin0)
        · refine Or.inr ?_
          rw [har, hpv0, PointVal.new_getOr]
      · refine Or.inr ?_
        rw [har, hgetOr1e]
    rw [hbase l]
    rcases hclass with har | har <;> rw [har]
    · exact ⟨by show (0 : Nat) + 0 < 2 ^ 32; norm_num, by show (0 : Nat) ≤ 0 + 0; omega⟩
    · exact ⟨by show (0 : Nat) + (0 + a.size) < 2 ^ 32; omega,
        by show (0 : Nat) ≤ 0 + (0 + a.size); omega⟩
  have hMP := mapPoints_eq_ok hbound
  set pv3 := mapPointsP (TimeSize.new fs).size pv2 with hpv3
  have hfind3e : pv3.find Line.everything = some a.size := by
    rw [hpv3, mapPointsP_find, hfind2e]
    simp [hbase]
  refine ⟨src.startTime + (((coalesce (some src.currentTime) a.toc
      (minTimeSpacing src.currentTime res.width)).1 : Nat) : Int), pv3, ?_, hfind3e, ?_⟩
  · simp only [TimeSize.new_points, hGA, TimeSize.generate_points, genLoop, hMP,
      List.nil_append, borders_singleton]
  · rw [pv_map_zero_find, hfind3e]
    rfl

/-- Witness for `single_point_borders`: one birth of size 5 at time 0,
stream time 10, width 200. -/
theorem single_point_borders_witness :
    ∃ (d : Int) (pv : PointVal Nat),
      ((TimeSize.new []).new_points [] false ⟨200, 100⟩
          ⟨0, 10, [⟨0, 5, 0, []⟩], [], [], none⟩).2 =
        .ok [(d - 1000000000, pv.map fun kv => (kv.1, 0)), (d, pv),
             (d + 1000000000, pv.map fun kv => (kv.1, 0))] ∧
      pv.find .everything = some 5 ∧
      PointVal.find (pv.map fun kv => (kv.1, (0 : Nat))) .everything = some 0 :=
  single_point_borders [] ⟨200, 100⟩ ⟨0, 10, [⟨0, 5, 0, []⟩], [], [], none⟩ ⟨0, 5, 0, []⟩
    rfl rfl rfl (by norm_num) (by decide)
